import Mathlib

/-!
Shallow embedding of `pyerrors/linalg.py` (array-valued automatic error
propagation engine `derived_array`, the complex matrix adapter
`mat_mat_op`, the eigenvalue adapter `eig` and the custom backward rule
`grad_eig`).

Conventions of the embedding:
* Python floats are modelled as exact rationals `ℚ`.
* Ensemble names (Python strings) are modelled as `Nat`; `sorted(set(...))`
  becomes insertion sort after `dedup`.
* A fluctuation record `Obs` is modelled by its fields used in
  `linalg.py`: `value`, `names`, the per-ensemble delta dictionary and the
  per-ensemble mean dictionary (`r_values`); the `shape` dictionary of the
  Python object maps each ensemble to its configuration count, i.e. the
  length of its delta sequence, and is derived from `deltas` here.
  The `Obs` class itself lives in `pyerrors/pyerrors.py`, which is not part
  of the sources; its construction is modelled from the spec where needed.
* Python exceptions become an `Err`-valued `Except`: dictionary lookups
  that can fail (`o.deltas[name]`, `shape[name]`) return `keyError`,
  `names[0]` on an empty list returns `indexError`, and the use of the
  loop variable `first_name` when no `Obs` was found returns `nameError`
  (Python raises `NameError` there).
* `data` is a list of equally shaped matrices of entries, matching every
  call site in the repository (`matmul`, `mat_mat_op`): `np.asarray(data)`
  has shape `(n_dat, r, c)`.  `func` consumes the rational values and
  returns a matrix; the autograd Jacobian is an external collaborator and
  is passed in as an explicit argument (`auto_grad`), exactly as
  `man_grad` is.
-/

namespace PyerrorsLinalg

/-- A fluctuation record (`Obs`), as used by `linalg.py`.  `deltas` and
`rvals` are association lists modelling the Python dictionaries
`self.deltas` and `self.r_values`; `names` models `self.names`. -/
structure Obs where
  value : ℚ
  names : List Nat
  deltas : List (Nat × List ℚ)
  rvals : List (Nat × ℚ)
deriving DecidableEq, Repr

/-- The `shape` dictionary of an `Obs`: ensemble name to configuration
count, i.e. the length of the delta sequence of that ensemble. -/
def Obs.shape (o : Obs) (nm : Nat) : Option Nat :=
  (o.deltas.lookup nm).map List.length

/-- An entry of the raveled input collection: either a fluctuation record
or a plain Python number (`int`/`float`). -/
inductive Entry where
  | obs (o : Obs)
  | num (x : ℚ)
deriving DecidableEq, Repr

/-- Whether an entry is a plain number (`isinstance(x, (int, float))`). -/
def Entry.isNum : Entry → Bool
  | .obs _ => false
  | .num _ => true

/-- The fatal conditions `derived_array` can signal. -/
inductive Err where
  /-- Python `NameError`: `first_name` is referenced during promotion but
  the first loop found no `Obs` to bind it. -/
  | nameError
  /-- Python `IndexError`: `i_data.names[0]` on a record with no names. -/
  | indexError
  /-- Python `KeyError` on a dictionary access such as `o.deltas[name]`. -/
  | keyError (nm : Nat)
  /-- `Exception('Shapes of ensemble', name, 'do not match.')`. -/
  | shapeMismatch (nm : Nat)
  /-- `Exception('Manual derivative does not have correct shape.')`. -/
  | manGradShape
  /-- `Exception('Multi mode currently not supported for numerical derivative')`. -/
  | numGradUnsupported
deriving DecidableEq, Repr

deriving instance DecidableEq for Except

/-- Exception-propagating map over a list: the Python `for` loop in which
each iteration may raise. -/
def mapME (g : α → Except Err β) : List α → Except Err (List β)
  | [] => .ok []
  | x :: xs =>
    match g x with
    | .error e => .error e
    | .ok y =>
      match mapME g xs with
      | .error e => .error e
      | .ok ys => .ok (y :: ys)

/-- `data.ravel()` on the `(n_dat, r, c)`-shaped object array: row-major
flattening. -/
def ravelE (data : List (List (List Entry))) : List Entry :=
  data.flatten.flatten

/-- Row-major flattening of the promoted data. -/
def ravelO (dataP : List (List (List Obs))) : List Obs :=
  dataP.flatten.flatten

/-- Lines 48-52: scan `raveled_data` for the first `Obs` and read its
first ensemble name (`names[0]`) and that ensemble's configuration count
(`shape[first_name]`).  Returns `none` when no `Obs` occurs (in Python
`first_name` then stays unbound). -/
def firstRef : List Entry → Except Err (Option (Nat × Nat))
  | [] => .ok none
  | .num _ :: rest => firstRef rest
  | .obs o :: _ =>
    match o.names with
    | [] => .error .indexError
    | nm :: _ =>
      match o.deltas.lookup nm with
      | none => .error (.keyError nm)
      | some ds => .ok (some (nm, ds.length))

/-- Modelled from the spec: the `Obs(samples, names)` constructor of
`pyerrors/pyerrors.py` (not part of the sources) builds a record from raw
samples: central value is the sample mean, deltas are the samples minus
the mean, and the per-ensemble mean (`r_values`) of the single ensemble is
that same mean.  For the constant samples `x + np.zeros(first_shape)` of
line 56 this yields value `x`, a zero delta sequence of length
`first_shape` and per-ensemble mean `x`. -/
def Obs.ofConstant (x : ℚ) (nm : Nat) (len : Nat) : Obs :=
  { value := x
    names := [nm]
    deltas := [(nm, List.replicate len 0)]
    rvals := [(nm, x)] }

/-- Lines 54-56: promote a plain-number entry to a constant record on the
first ensemble of the first `Obs` found; referencing `first_name` without
a binding is Python's `NameError`. -/
def promoteEntry (fr : Option (Nat × Nat)) : Entry → Except Err Obs
  | .obs o => .ok o
  | .num x =>
    match fr with
    | none => .error .nameError
    | some (nm, len) => .ok (Obs.ofConstant x nm len)

/-- Promotion of the whole collection (the loop over `raveled_data`,
which writes through the `ravel` view; the array keeps its shape). -/
def promoteData (fr : Option (Nat × Nat)) (data : List (List (List Entry))) :
    Except Err (List (List (List Obs))) :=
  mapME (fun m => mapME (fun r => mapME (promoteEntry fr) r) m) data

/-- Insert into a sorted list of names. -/
def insertSorted (x : Nat) : List Nat → List Nat
  | [] => [x]
  | y :: ys => if x ≤ y then x :: y :: ys else y :: insertSorted x ys

/-- Ascending sort, modelling Python's `sorted`. -/
def sortNats (l : List Nat) : List Nat :=
  l.foldr insertSorted []

/-- Line 59: `new_names = sorted(set(flatten of names))`. -/
def newNamesOf (os : List Obs) : List Nat :=
  sortNats ((os.map Obs.names).flatten.dedup)

/-- Lines 62-70, inner loop: check one record's ensembles against the
`new_shape` dictionary accumulated so far. -/
def checkNamesFor (o : Obs) : List Nat → List (Nat × Nat) →
    Except Err (List (Nat × Nat))
  | [], sh => .ok sh
  | nm :: rest, sh =>
    match o.shape nm with
    | none => checkNamesFor o rest sh
    | some t =>
      match sh.lookup nm with
      | none => checkNamesFor o rest ((nm, t) :: sh)
      | some t' =>
        if t' = t then checkNamesFor o rest sh
        else .error (.shapeMismatch nm)

/-- Lines 61-70, outer loop over `raveled_data`. -/
def checkShapesAux (names : List Nat) : List Obs → List (Nat × Nat) →
    Except Err (List (Nat × Nat))
  | [], sh => .ok sh
  | o :: os, sh =>
    match checkNamesFor o names sh with
    | .error e => .error e
    | .ok sh' => checkShapesAux names os sh'

/-- Lines 61-70: verify that every ensemble has one configuration count
across all records that reference it. -/
def checkShapes (os : List Obs) (names : List Nat) :
    Except Err (List (Nat × Nat)) :=
  checkShapesAux names os []

/-- Lines 71-74: the central values of the (promoted) data. -/
def valuesOf (dataP : List (List (List Obs))) : List (List (List ℚ)) :=
  dataP.map (fun m => m.map (fun r => r.map Obs.value))

/-- Lines 80-86: the input values used for the per-ensemble mean of
ensemble `nm`: each record contributes `r_values[nm]` when it has it and
its central value otherwise (`item.r_values.get(name)` with `None`
fallback to `item.value`). -/
def rInput (dataP : List (List (List Obs))) (nm : Nat) : List (List (List ℚ)) :=
  dataP.map (fun m => m.map (fun r => r.map (fun o => ((o.rvals.lookup nm).getD o.value))))

/-- A numpy array of rationals of arbitrary nesting depth, used for the
(manual or autograd) Jacobian. -/
inductive NDArr where
  | leaf (x : ℚ)
  | node (xs : List NDArr)

/-- The numpy shape of a (rectangular) nested array. -/
def NDArr.shape : NDArr → List Nat
  | .leaf _ => []
  | .node [] => [0]
  | .node (t :: ts) => (ts.length + 1) :: t.shape

/-- Index one axis (out-of-range reads give a zero scalar; the embedding
only reads in-range cells). -/
def NDArr.get : NDArr → Nat → NDArr
  | .leaf _, _ => .leaf 0
  | .node xs, i => xs.getD i (.leaf 0)

/-- The scalar held by a zero-dimensional array. -/
def NDArr.val : NDArr → ℚ
  | .leaf x => x
  | .node _ => 0

/-- The numpy shape of a matrix-valued `func` result. -/
def mshape (m : List (List ℚ)) : List Nat :=
  [m.length, (m.headD []).length]

/-- The numpy shape `(n_dat, r, c)` of `np.asarray(data)`. -/
def dshape (data : List (List (List Entry))) : List Nat :=
  [data.length, (data.headD []).length, ((data.headD []).headD []).length]

/-- Lines 89-96: choose the Jacobian.  A manually supplied one is shape
checked against `new_values.shape + data.shape` and otherwise used
verbatim; `num_grad=True` without a manual Jacobian is unsupported; the
default is the externally computed autograd Jacobian. -/
def pickDeriv (nvShape dataShape : List Nat) (man_grad : Option NDArr)
    (num_grad : Bool) (auto_grad : NDArr) : Except Err NDArr :=
  match man_grad with
  | some mg =>
    if nvShape ++ dataShape ≠ mg.shape then .error .manGradShape
    else .ok mg
  | none =>
    if num_grad then .error .numGradUnsupported
    else .ok auto_grad

/-- Line 105, innermost comprehension: `o.deltas[name]` for each record of
one row; a record that does not reference `name` raises `KeyError`. -/
def extractRow (nm : Nat) (row : List Obs) : Except Err (List (List ℚ)) :=
  mapME (fun o =>
    match o.deltas.lookup nm with
    | none => .error (.keyError nm)
    | some ds => .ok ds) row

/-- Line 105 for one input matrix `dat`: the `(r, c, ens_length)` array of
delta sequences. -/
def extractDat (nm : Nat) (dat : List (List Obs)) :
    Except Err (List (List (List ℚ))) :=
  mapME (extractRow nm) dat

/-- Lines 103-105: `d_extracted[name]`, one entry per input matrix. -/
def extractName (dataP : List (List (List Obs))) (nm : Nat) :
    Except Err (List (List (List (List ℚ)))) :=
  mapME (extractDat nm) dataP

/-- Lines 100-105: `d_extracted` for every ensemble of `new_names`. -/
def extractAll (names : List Nat) (dataP : List (List (List Obs))) :
    Except Err (List (Nat × List (List (List (List ℚ))))) :=
  mapME (fun nm =>
    match extractName dataP nm with
    | .error e => .error e
    | .ok l => .ok (nm, l)) names

/-- Line 110: `ens_length = d_extracted[name][0].shape[-1]`, the delta
length for this ensemble, read off the first record of the first input
matrix. -/
def ensLenOf (dexn : List (List (List (List ℚ)))) : Nat :=
  (((dexn.headD []).headD []).headD []).length

/-- `np.tensordot(deriv[i_val + (i_dat,)], dat)` with the default two
contracted axes: sum over all matrix positions `(p, q)` of the Jacobian
cell times configuration `k` of that record's delta sequence. -/
def tdotAt (g : NDArr) (d : List (List (List ℚ))) (k : Nat) : ℚ :=
  (d.enum.map (fun pr =>
    (pr.2.enum.map (fun qr => ((g.get pr.1).get qr.1).val * qr.2.getD k 0)).sum)).sum

/-- Lines 109-113: the propagated delta sequence of output element
`(a, b)` for one ensemble: the sum over input matrices of the tensordot
above, one entry per configuration. -/
def newDelta (deriv : NDArr) (a b : Nat)
    (dexn : List (List (List (List ℚ)))) : List ℚ :=
  (List.range (ensLenOf dexn)).map (fun k =>
    (dexn.enum.map (fun idat =>
      tdotAt (((deriv.get a).get b).get idat.1) idat.2 k)).sum)

/-- Entry `(a, b)` of a matrix of rationals. -/
def matAt (m : List (List ℚ)) (a b : Nat) : ℚ :=
  (m.getD a []).getD b 0

/-- Lines 115-122: assemble the output record of element `(a, b)`.
Modelled from the spec: `Obs(new_samples, new_names, means=new_means)`
(the constructor lives in `pyerrors/pyerrors.py`, not in the sources)
stores the supplied delta sequences per ensemble and the supplied means as
the per-ensemble `r_values`; line 122 then overwrites the value with
`new_val`. -/
def mkOut (names : List Nat) (rvs : Nat → List (List ℚ)) (deriv : NDArr)
    (dex : List (Nat × List (List (List (List ℚ))))) (a b : Nat) (v : ℚ) : Obs :=
  { value := v
    names := names
    deltas := names.map (fun nm => (nm, newDelta deriv a b ((dex.lookup nm).getD [])))
    rvals := names.map (fun nm => (nm, matAt (rvs nm) a b)) }

/-- One output row (inner part of `np.ndenumerate(new_values)`). -/
def buildRow (names : List Nat) (rvs : Nat → List (List ℚ)) (deriv : NDArr)
    (dex : List (Nat × List (List (List (List ℚ))))) (a : Nat) :
    Nat → List ℚ → List Obs
  | _, [] => []
  | b, v :: vs =>
    mkOut names rvs deriv dex a b v :: buildRow names rvs deriv dex a (b + 1) vs

/-- All output rows. -/
def buildRows (names : List Nat) (rvs : Nat → List (List ℚ)) (deriv : NDArr)
    (dex : List (Nat × List (List (List (List ℚ))))) :
    Nat → List (List ℚ) → List (List Obs)
  | _, [] => []
  | a, row :: rows =>
    buildRow names rvs deriv dex a 0 row :: buildRows names rvs deriv dex (a + 1) rows

/-- Lines 98-124: the `final_result` array, one record per entry of
`new_values`. -/
def buildResult (nv : List (List ℚ)) (names : List Nat)
    (rvs : Nat → List (List ℚ)) (deriv : NDArr)
    (dex : List (Nat × List (List (List (List ℚ))))) : List (List Obs) :=
  buildRows names rvs deriv dex 0 nv

/-- Lines 100-124: everything after the Jacobian has been fixed — extract
the per-ensemble delta arrays and assemble the output records using the
chosen Jacobian `deriv` verbatim. -/
def propagateWith (f : List (List (List ℚ)) → List (List ℚ))
    (dataP : List (List (List Obs))) (deriv : NDArr) :
    Except Err (List (List Obs)) :=
  match extractAll (newNamesOf (ravelO dataP)) dataP with
  | .error e => .error e
  | .ok dex =>
    .ok (buildResult (f (valuesOf dataP)) (newNamesOf (ravelO dataP))
      (fun nm => f (rInput dataP nm)) deriv dex)

/-- `derived_array(func, data, **kwargs)` of `pyerrors/linalg.py`
(lines 16-124), for `data` a list of equally shaped matrices of records
and plain numbers, as at every call site of the repository.  `man_grad`
and `num_grad` are the keyword arguments; `auto_grad` is the Jacobian the
external autograd collaborator would return for `func` at the central
values (line 96). -/
def derived_array (f : List (List (List ℚ)) → List (List ℚ))
    (data : List (List (List Entry))) (man_grad : Option NDArr)
    (num_grad : Bool) (auto_grad : NDArr) : Except Err (List (List Obs)) :=
  match firstRef (ravelE data) with
  | .error e => .error e
  | .ok fr =>
    match promoteData fr data with
    | .error e => .error e
    | .ok dataP =>
      match checkShapes (ravelO dataP) (newNamesOf (ravelO dataP)) with
      | .error e => .error e
      | .ok _ =>
        match pickDeriv (mshape (f (valuesOf dataP))) (dshape data)
            man_grad num_grad auto_grad with
        | .error e => .error e
        | .ok deriv => propagateWith f dataP deriv

/-- The record placed at a missing output position (never read in-range). -/
def defaultObs : Obs :=
  { value := 0, names := [], deltas := [], rvals := [] }

/-- The output record at position `(a, b)` of `final_result`. -/
def resAt (res : List (List Obs)) (a b : Nat) : Obs :=
  (res.getD a []).getD b defaultObs

/-- The property the shape check of lines 61-70 enforces: within the
given records, every ensemble of `names` has a single configuration
count. -/
def ShapeConsistent (os : List Obs) (names : List Nat) : Prop :=
  ∀ nm ∈ names, ∀ o1 ∈ os, ∀ o2 ∈ os, ∀ t1 t2,
    o1.shape nm = some t1 → o2.shape nm = some t2 → t1 = t2

/-- A record's configuration counts agree with the accumulated `new_shape`
dictionary on every name of `names`. -/
def AgreesWith (o : Obs) (sh : List (Nat × Nat)) (names : List Nat) : Prop :=
  ∀ nm ∈ names, ∀ t t', o.shape nm = some t → sh.lookup nm = some t' → t = t'

/-! ## `mat_mat_op` for complex matrices (lines 174-198)

Structural embedding of the complex branch at the level of the central
values: a complex matrix of records is split into real parts `A` and
imaginary parts `B` (lines 178-186), the real block matrix
`np.block([[A, -B], [B, A]])` is formed (line 187), the real operation is
applied to it once through the derivation engine (line 191, whose value
component is exactly `op` applied to the block matrix), and the result's
top-left quadrant becomes the real parts and its bottom-left quadrant the
imaginary parts of the returned complex matrix (lines 192-197).  The
`dim//2` index split of the Python array is the `Sum.inl`/`Sum.inr` block
decomposition here. -/

/-- The real `2n × 2n` block representation `[[A, -B], [B, A]]` of the
complex matrix `A + iB` (line 187). -/
def bigMatrix {n : ℕ} (A B : Matrix (Fin n) (Fin n) ℚ) :
    Matrix (Fin n ⊕ Fin n) (Fin n ⊕ Fin n) ℚ :=
  Matrix.fromBlocks A (-B) B A

/-- Lines 187-197: form the block matrix, apply `op` to it, and read the
real and imaginary parts of the result off the top-left and bottom-left
quadrants. -/
def mat_mat_op_complex {n : ℕ}
    (op : Matrix (Fin n ⊕ Fin n) (Fin n ⊕ Fin n) ℚ →
      Matrix (Fin n ⊕ Fin n) (Fin n ⊕ Fin n) ℚ)
    (A B : Matrix (Fin n) (Fin n) ℚ) :
    Matrix (Fin n) (Fin n) ℚ × Matrix (Fin n) (Fin n) ℚ :=
  ((op (bigMatrix A B)).toBlocks₁₁, (op (bigMatrix A B)).toBlocks₂₁)

/-- Complex matrix multiplication on (real part, imaginary part) pairs. -/
def cMul {n : ℕ}
    (P Q : Matrix (Fin n) (Fin n) ℚ × Matrix (Fin n) (Fin n) ℚ) :
    Matrix (Fin n) (Fin n) ℚ × Matrix (Fin n) (Fin n) ℚ :=
  (P.1 * Q.1 - P.2 * Q.2, P.1 * Q.2 + P.2 * Q.1)

/-- The complex identity matrix as a pair. -/
def cOne {n : ℕ} : Matrix (Fin n) (Fin n) ℚ × Matrix (Fin n) (Fin n) ℚ :=
  (1, 0)

/-- The block representation of the imaginary unit: multiplication by `i`. -/
def Jmat {n : ℕ} : Matrix (Fin n ⊕ Fin n) (Fin n ⊕ Fin n) ℚ :=
  Matrix.fromBlocks 0 (-1) 1 0

/-! ## `grad_eig` (lines 492-511)

Embedding of the backward rule for `anp.linalg.eig` for the case of a real
eigensystem (real input whose eigenvalues `e` and eigenvectors `u` are
real, e.g. any real-diagonalizable input with real spectrum; `anp.conj` is
then the identity and the final `anp.real` of line 507 keeps the value).
`anp.linalg.inv(ut)` is an external numeric routine; its result is passed
in as `uti` and theorems constrain it by `uᵀ * uti = 1`. -/

/-- The float literal `1.e-20` of line 500. -/
def epsReg : ℚ := 1 / 10 ^ 20

/-- Line 500: `f = 1 / (e[..., newaxis, :] - e[..., :, newaxis] + 1.e-20)`;
its `(i, j)` entry is `1 / (e j - e i + 1e-20)`. -/
def pairF {n : ℕ} (e : Fin n → ℚ) : Matrix (Fin n) (Fin n) ℚ :=
  Matrix.of fun i j => (e j - e i + epsReg)⁻¹

/-- `_diag` (line 477): `anp.eye(n) * a`, the diagonal part of a matrix. -/
def diagPart {n : ℕ} (M : Matrix (Fin n) (Fin n) ℚ) :
    Matrix (Fin n) (Fin n) ℚ :=
  Matrix.of fun i j => if i = j then M i j else 0

/-- Line 501: `f -= _diag(f)`, the pairwise matrix with zeroed diagonal. -/
def pairFz {n : ℕ} (e : Fin n → ℚ) : Matrix (Fin n) (Fin n) ℚ :=
  pairF e - diagPart (pairF e)

/-- Elementwise (Hadamard) product, numpy's `*` on arrays. -/
def had {n : ℕ} (A B : Matrix (Fin n) (Fin n) ℚ) :
    Matrix (Fin n) (Fin n) ℚ :=
  Matrix.of fun i j => A i j * B i j

/-- Lines 497-510: the vector-Jacobian product returned by `grad_eig`.
`ge`/`gu` are the output sensitivities of the eigenvalues and
eigenvectors, `_matrix_diag(ge)` is `Matrix.diagonal ge`,
`anp.real(...) * anp.eye(n)` is `diagPart`, and `r = inv(ut) @
(ge + r1 + r2) @ ut`. -/
def grad_eig_vjp {n : ℕ} (e : Fin n → ℚ) (u uti : Matrix (Fin n) (Fin n) ℚ)
    (ge : Fin n → ℚ) (gu : Matrix (Fin n) (Fin n) ℚ) :
    Matrix (Fin n) (Fin n) ℚ :=
  let ut := u.transpose
  let r1 := had (pairFz e) (ut * gu)
  let r2 := -(had (pairFz e) ((ut * u) * diagPart (ut * gu)))
  uti * (Matrix.diagonal ge + r1 + r2) * ut

/-! ## `eig` (lines 214-221 and 350-389)

Both the automatic-differentiation path (line 220,
`anp.real(anp.linalg.eig(x)[0])`) and the numerical path (lines 368-370,
`np.real(res[kwargs.get('i')])`) keep only the real part of every
eigenvalue returned by the external `eig` routine.  Complex scalars are
modelled as (real, imaginary) pairs of rationals. -/

/-- `anp.real` / `np.real` on a complex scalar. -/
def realPart (z : ℚ × ℚ) : ℚ := z.1

/-- The list of values `eig` wraps into records, given the spectrum the
external `np.linalg.eig` routine returned: the real part of each
eigenvalue, for both the autograd path and the `num_grad` path. -/
def eig_returned (spectrum : List (ℚ × ℚ)) : List ℚ :=
  spectrum.map realPart

/-- Complex multiplication on (real, imaginary) pairs. -/
def cmulp (x y : ℚ × ℚ) : ℚ × ℚ :=
  (x.1 * y.1 - x.2 * y.2, x.1 * y.2 + x.2 * y.1)

/-- Complex subtraction on (real, imaginary) pairs. -/
def csubp (x y : ℚ × ℚ) : ℚ × ℚ :=
  (x.1 - y.1, x.2 - y.2)

/-- `lam` is an eigenvalue of the complex 2×2 matrix `[[a, b], [c, d]]`:
the characteristic determinant `(a - lam)(d - lam) - b c` vanishes. -/
def isEig2 (a b c d lam : ℚ × ℚ) : Prop :=
  csubp (cmulp (csubp a lam) (csubp d lam)) (cmulp b c) = (0, 0)

instance (a b c d lam : ℚ × ℚ) : Decidable (isEig2 a b c d lam) := by
  unfold isEig2; infer_instance

/-! ## Caller-visible state of the input collection (claim C7)

`data = np.asarray(data)` (line 44) returns the caller's own array object
when the caller passed an ndarray (`asarray` copies only non-array input,
e.g. a list), and `data.ravel()` (line 45) is a view into that same
buffer for a C-contiguous array.  The promotion loop of lines 54-56
therefore writes through to the caller's array when an ndarray was
passed.  `callerViewAfter` is the content of the caller's collection
after the call: unchanged for list input, promoted in place for ndarray
input (entries whose promotion is never reached because the loop raised
first are unchanged; this only happens when no entry is an `Obs`, in
which case no entry was promoted). -/
def callerViewAfter (passedAsArray : Bool) (data : List (List (List Entry))) :
    List (List (List Entry)) :=
  if passedAsArray then
    match firstRef (ravelE data) with
    | .error _ => data
    | .ok fr =>
      data.map (fun m => m.map (fun r => r.map (fun e =>
        match promoteEntry fr e with
        | .ok o => .obs o
        | .error _ => e)))
  else data

/-- The entry of the collection at position `(i, j, k)`. -/
def entryAt (data : List (List (List Entry))) (i j k : Nat) : Option Entry :=
  ((data.getD i []).getD j []).get? k

/-! ## Concrete records and inputs used to instantiate the theorems -/

/-- A record on ensemble `0` with two configurations. -/
def obsE0 : Obs := ⟨1, [0], [(0, [1, -1])], [(0, 1)]⟩

/-- A record on ensemble `1` with two configurations. -/
def obsE1 : Obs := ⟨2, [1], [(1, [2, -2])], [(1, 2)]⟩

/-- A second record on ensemble `0` with two configurations, whose
per-ensemble mean differs from its central value. -/
def obsE0b : Obs := ⟨4, [0], [(0, [2, -2])], [(0, 5)]⟩

/-- A record on ensemble `0` with three configurations (conflicting
with `obsE0`). -/
def obsE0c : Obs := ⟨5, [0], [(0, [1, 2, -3])], [(0, 5)]⟩

/-- An identity-like `func`: returns the first input matrix. -/
def funcHead (v : List (List (List ℚ))) : List (List ℚ) := v.headD []

/-- A Jacobian array of shape `[1, 1, 1, 1, 1]`. -/
def grad5one : NDArr := .node [.node [.node [.node [.node [.leaf 1]]]]]

/-- The identity Jacobian of `funcHead` on one `1 × 2` input matrix
(shape `[1, 2, 1, 1, 2]`). -/
def gradPair : NDArr :=
  .node [.node [.node [.node [.node [.leaf 1, .leaf 0]]],
                .node [.node [.node [.leaf 0, .leaf 1]]]]]

/-- The real part of the 1×1 complex matrix `[i]`. -/
def cexA : Matrix (Fin 1) (Fin 1) ℚ := 0

/-- The imaginary part of the 1×1 complex matrix `[i]`. -/
def cexB : Matrix (Fin 1) (Fin 1) ℚ := 1

/-- The inverse of `bigMatrix cexA cexB = [[0, -1], [1, 0]]`. -/
def cexInv : Matrix (Fin 1 ⊕ Fin 1) (Fin 1 ⊕ Fin 1) ℚ :=
  Matrix.fromBlocks 0 1 (-1) 0

/-- An `op` whose value at the block matrix is its inverse (the
`np.linalg.inv` contract at this input). -/
def cexOp (_ : Matrix (Fin 1 ⊕ Fin 1) (Fin 1 ⊕ Fin 1) ℚ) :
    Matrix (Fin 1 ⊕ Fin 1) (Fin 1 ⊕ Fin 1) ℚ := cexInv

/-- Whether a call returned a result (rather than raising). -/
def exOk : Except Err (List (List Obs)) → Bool
  | .ok _ => true
  | .error _ => false

/-- Input collection: one 1×2 matrix holding `obsE0` and `obsE0b`. -/
def dataW : List (List (List Entry)) := [[[.obs obsE0, .obs obsE0b]]]

/-- The promoted form of `dataW` (no plain numbers, so unchanged). -/
def dataPW : List (List (List Obs)) := [[[obsE0, obsE0b]]]

/-- `d_extracted` for `dataW`: ensemble `0` with the two delta rows. -/
def dexW : List (Nat × List (List (List (List ℚ)))) :=
  [(0, [[[[1, -1], [2, -2]]]])]

/-- The result records of `derived_array funcHead dataW none false gradPair`. -/
def resW : List (List Obs) :=
  buildResult (funcHead (valuesOf dataPW)) (newNamesOf (ravelO dataPW))
    (fun nm => funcHead (rInput dataPW nm)) gradPair dexW

/-- Input with an ensemble-0 configuration-count conflict (2 vs 3). -/
def dataC3 : List (List (List Entry)) := [[[.obs obsE0, .obs obsE0c]]]

/-- A single 1×1 record matrix. -/
def dataC6 : List (List (List Entry)) := [[[.obs obsE0]]]

/-- An ndarray collection holding a record next to a plain number. -/
def dataC7 : List (List (List Entry)) := [[[.obs obsE0, .num 5]]]

/-! ## Lemmas about the loop combinator `mapME` -/

theorem mapME_cons_ok {g : α → Except Err β} {x : α} {xs : List α} {l : List β}
    (h : mapME g (x :: xs) = .ok l) :
    ∃ y ys, g x = .ok y ∧ mapME g xs = .ok ys ∧ l = y :: ys := by
  unfold mapME at h
  cases hx : g x with
  | error e => rw [hx] at h; exact absurd h (by simp)
  | ok y =>
    rw [hx] at h
    cases hxs : mapME g xs with
    | error e => rw [hxs] at h; exact absurd h (by simp)
    | ok ys =>
      rw [hxs] at h
      exact ⟨y, ys, rfl, rfl, by injection h with h; exact h.symm⟩

theorem mapME_cons_head_err {g : α → Except Err β} {x : α} {xs : List α}
    {e : Err} (h : g x = .error e) : mapME g (x :: xs) = .error e := by
  unfold mapME
  rw [h]

theorem mapME_cons_tail_err {g : α → Except Err β} {x : α} {xs : List α}
    {y : β} {e : Err} (hx : g x = .ok y) (hxs : mapME g xs = .error e) :
    mapME g (x :: xs) = .error e := by
  unfold mapME
  rw [hx, hxs]

theorem mapME_cons_both_ok {g : α → Except Err β} {x : α} {xs : List α}
    {y : β} {ys : List β} (hx : g x = .ok y) (hxs : mapME g xs = .ok ys) :
    mapME g (x :: xs) = .ok (y :: ys) := by
  unfold mapME
  rw [hx, hxs]

theorem mapME_ok_mem {g : α → Except Err β} {l : List α} {l' : List β}
    (h : mapME g l = .ok l') (x : α) (hx : x ∈ l) (y : β)
    (hy : g x = .ok y) : y ∈ l' := by
  induction l generalizing l' with
  | nil => exact absurd hx (by simp)
  | cons a l ih =>
    obtain ⟨b, ys, hb, hys, rfl⟩ := mapME_cons_ok h
    rcases List.mem_cons.mp hx with rfl | hx'
    · rw [hb] at hy; injection hy with hy; exact hy ▸ List.mem_cons_self b ys
    · exact List.mem_cons_of_mem b (ih hys hx')

theorem mapME_append_ok {g : α → Except Err β} :
    ∀ {xs : List α} {xs' : List β} {ys : List α} {ys' : List β},
      mapME g xs = .ok xs' → mapME g ys = .ok ys' →
      mapME g (xs ++ ys) = .ok (xs' ++ ys')
  | [], xs', ys, ys', hx, hy => by
    unfold mapME at hx; injection hx with hx; rw [← hx]; simpa using hy
  | a :: xs, xs', ys, ys', hx, hy => by
    obtain ⟨b, bs, hb, hbs, rfl⟩ := mapME_cons_ok hx
    show mapME g (a :: (xs ++ ys)) = _
    unfold mapME
    rw [hb, mapME_append_ok hbs hy]
    rfl

theorem mapME_flatten_ok {g : α → Except Err β} :
    ∀ {m : List (List α)} {m' : List (List β)},
      mapME (fun r => mapME g r) m = .ok m' →
      mapME g m.flatten = .ok m'.flatten
  | [], m', h => by
    unfold mapME at h; injection h with h; rw [← h]; rfl
  | r :: m, m', h => by
    obtain ⟨r', rs', hr, hrs, rfl⟩ := mapME_cons_ok h
    simpa using mapME_append_ok hr (mapME_flatten_ok hrs)

/-- Successful promotion, restated on the raveled collection. -/
theorem promoteData_ravel {fr : Option (Nat × Nat)}
    {data : List (List (List Entry))} {dataP : List (List (List Obs))}
    (h : promoteData fr data = .ok dataP) :
    mapME (promoteEntry fr) (ravelE data) = .ok (ravelO dataP) := by
  unfold promoteData at h
  exact mapME_flatten_ok (mapME_flatten_ok h)

theorem mapME_error_cases {g : α → Except Err β} :
    ∀ {l : List α} {e : Err}, mapME g l = .error e → ∃ x ∈ l, g x = .error e
  | [], e, h => by exact absurd h (by simp [mapME])
  | a :: l, e, h => by
    unfold mapME at h
    cases ha : g a with
    | error e' =>
      rw [ha] at h
      injection h with h
      exact ⟨a, List.mem_cons_self a l, h ▸ ha⟩
    | ok y =>
      rw [ha] at h
      cases hl : mapME g l with
      | error e' =>
        rw [hl] at h
        injection h with h
        obtain ⟨x, hx, hgx⟩ := mapME_error_cases (h ▸ hl)
        exact ⟨x, List.mem_cons_of_mem a hx, hgx⟩
      | ok ys => rw [hl] at h; exact absurd h (by simp)

/-! ## Classification of the errors of each stage -/

theorem extractRow_error {nm : Nat} {row : List Obs} {e : Err}
    (h : extractRow nm row = .error e) : e = .keyError nm := by
  obtain ⟨o, _, ho⟩ := mapME_error_cases h
  cases hl : o.deltas.lookup nm with
  | none => rw [hl] at ho; injection ho with ho; exact ho.symm
  | some ds => rw [hl] at ho; exact absurd ho (by simp)

theorem extractDat_error {nm : Nat} {dat : List (List Obs)} {e : Err}
    (h : extractDat nm dat = .error e) : e = .keyError nm := by
  obtain ⟨row, _, hrow⟩ := mapME_error_cases h
  exact extractRow_error hrow

theorem extractName_error {dataP : List (List (List Obs))} {nm : Nat} {e : Err}
    (h : extractName dataP nm = .error e) : e = .keyError nm := by
  obtain ⟨dat, _, hdat⟩ := mapME_error_cases h
  exact extractDat_error hdat

theorem extractAll_error {names : List Nat} {dataP : List (List (List Obs))}
    {e : Err} (h : extractAll names dataP = .error e) :
    ∃ nm, e = .keyError nm := by
  obtain ⟨nm, _, hnm⟩ := mapME_error_cases h
  cases hx : extractName dataP nm with
  | error e' =>
    rw [hx] at hnm
    injection hnm with hnm
    exact ⟨nm, hnm ▸ extractName_error hx⟩
  | ok l => rw [hx] at hnm; exact absurd hnm (by simp)

theorem propagateWith_error {f : List (List (List ℚ)) → List (List ℚ)}
    {dataP : List (List (List Obs))} {deriv : NDArr} {e : Err}
    (h : propagateWith f dataP deriv = .error e) : ∃ nm, e = .keyError nm := by
  unfold propagateWith at h
  cases hx : extractAll (newNamesOf (ravelO dataP)) dataP with
  | error e' =>
    rw [hx] at h
    injection h with h
    exact h ▸ extractAll_error hx
  | ok dex => rw [hx] at h; exact absurd h (by simp)

theorem pickDeriv_error {nvShape dataShape : List Nat} {mg : Option NDArr}
    {ng : Bool} {ag : NDArr} {e : Err}
    (h : pickDeriv nvShape dataShape mg ng ag = .error e) :
    e = .manGradShape ∨ e = .numGradUnsupported := by
  unfold pickDeriv at h
  split at h
  · split at h
    · injection h with h; exact Or.inl h.symm
    · exact absurd h (by simp)
  · split at h
    · injection h with h; exact Or.inr h.symm
    · exact absurd h (by simp)

theorem checkNamesFor_error {o : Obs} :
    ∀ {names : List Nat} {sh : List (Nat × Nat)} {e : Err},
      checkNamesFor o names sh = .error e → ∃ nm, e = .shapeMismatch nm
  | [], sh, e, h => by exact absurd h (by simp [checkNamesFor])
  | nm :: rest, sh, e, h => by
    unfold checkNamesFor at h
    split at h
    · exact checkNamesFor_error h
    · split at h
      · exact checkNamesFor_error h
      · split at h
        · exact checkNamesFor_error h
        · injection h with h; exact ⟨nm, h.symm⟩

theorem checkShapesAux_error {names : List Nat} :
    ∀ {os : List Obs} {sh : List (Nat × Nat)} {e : Err},
      checkShapesAux names os sh = .error e → ∃ nm, e = .shapeMismatch nm
  | [], sh, e, h => by exact absurd h (by simp [checkShapesAux])
  | o :: os, sh, e, h => by
    unfold checkShapesAux at h
    cases hc : checkNamesFor o names sh with
    | error e' =>
      rw [hc] at h
      injection h with h
      exact h ▸ checkNamesFor_error hc
    | ok sh' => rw [hc] at h; exact checkShapesAux_error h

/-! ## Promotion with no record present -/

theorem firstRef_allnum {l : List Entry} (h : ∀ x ∈ l, Entry.isNum x) :
    firstRef l = .ok none := by
  induction l with
  | nil => rfl
  | cons a rest ih =>
    cases a with
    | num x => exact ih (fun y hy => h y (List.mem_cons_of_mem _ hy))
    | obs o =>
      have := h (.obs o) (List.mem_cons_self _ _)
      simp [Entry.isNum] at this

theorem promote_row_allnum_error {r : List Entry} (hne : r ≠ [])
    (hall : ∀ x ∈ r, Entry.isNum x) :
    mapME (promoteEntry none) r = .error .nameError := by
  cases r with
  | nil => exact absurd rfl hne
  | cons a r =>
    have ha := hall a (List.mem_cons_self _ _)
    cases a with
    | obs o => simp [Entry.isNum] at ha
    | num x => rfl

theorem promote_mat_empty {fr : Option (Nat × Nat)} :
    ∀ {m : List (List Entry)}, m.flatten = [] →
      ∃ mP, mapME (fun r => mapME (promoteEntry fr) r) m = .ok mP
  | [], _ => ⟨[], rfl⟩
  | r :: m, h => by
    have hr : r = [] := by
      have := List.flatten_eq_nil_iff.mp h
      exact this r (List.mem_cons_self _ _)
    subst hr
    have hm : m.flatten = [] := by simpa using h
    obtain ⟨mP, hmp⟩ := promote_mat_empty hm
    exact ⟨[] :: mP, mapME_cons_both_ok rfl hmp⟩

theorem promote_mat_allnum_error {m : List (List Entry)} (hne : m.flatten ≠ [])
    (hall : ∀ x ∈ m.flatten, Entry.isNum x) :
    mapME (fun r => mapME (promoteEntry none) r) m = .error .nameError := by
  induction m with
  | nil => simp at hne
  | cons r m ih =>
    by_cases hr : r = []
    · subst hr
      have hm : m.flatten ≠ [] := by simpa using hne
      have h2 := ih hm (fun x hx => hall x (by simpa using hx))
      exact mapME_cons_tail_err rfl h2
    · have hrow := promote_row_allnum_error hr
        (fun x hx => hall x (by simp [hx]))
      exact mapME_cons_head_err hrow

theorem promoteData_allnum_error {data : List (List (List Entry))}
    (hne : ravelE data ≠ []) (hall : ∀ x ∈ ravelE data, Entry.isNum x) :
    promoteData none data = .error .nameError := by
  induction data with
  | nil => simp [ravelE] at hne
  | cons m data ih =>
    have hrv : ravelE (m :: data) = m.flatten ++ ravelE data := by
      simp [ravelE]
    by_cases hm : m.flatten = []
    · have hne' : ravelE data ≠ [] := by
        intro h0; exact hne (by rw [hrv, hm, h0]; rfl)
      have h2 := ih hne' (fun x hx => hall x (by rw [hrv]; exact List.mem_append_right _ hx))
      obtain ⟨mP, hmp⟩ := promote_mat_empty hm
      have h2' : mapME (fun m => mapME (fun r => mapME (promoteEntry none) r) m) data
          = .error .nameError := h2
      show mapME (fun m => mapME (fun r => mapME (promoteEntry none) r) m) (m :: data)
          = .error .nameError
      exact mapME_cons_tail_err hmp h2'
    · have h1 := promote_mat_allnum_error hm
        (fun x hx => hall x (by rw [hrv]; exact List.mem_append_left _ hx))
      show mapME (fun m => mapME (fun r => mapME (promoteEntry none) r) m) (m :: data)
          = .error .nameError
      exact mapME_cons_head_err h1

/-! ## Membership in `new_names` -/

theorem mem_insertSorted {x y : Nat} :
    ∀ {l : List Nat}, y ∈ insertSorted x l ↔ y = x ∨ y ∈ l
  | [] => by simp [insertSorted]
  | a :: l => by
    unfold insertSorted
    by_cases h : x ≤ a
    · rw [if_pos h]; simp
    · rw [if_neg h]
      simp only [List.mem_cons, mem_insertSorted]
      tauto

theorem mem_sortNats {x : Nat} : ∀ {l : List Nat}, x ∈ sortNats l ↔ x ∈ l
  | [] => by simp [sortNats]
  | a :: l => by
    show x ∈ insertSorted a (sortNats l) ↔ _
    rw [mem_insertSorted]
    simp only [List.mem_cons, mem_sortNats]

theorem mem_newNamesOf {nm : Nat} {o : Obs} {os : List Obs}
    (ho : o ∈ os) (hnm : nm ∈ o.names) : nm ∈ newNamesOf os := by
  unfold newNamesOf
  rw [mem_sortNats, List.mem_dedup, List.mem_flatten]
  exact ⟨o.names, List.mem_map_of_mem _ ho, hnm⟩

/-! ## Access to the assembled output -/

theorem lookup_map_pair {β : Type} {g : Nat → β} {names : List Nat} {nm : Nat}
    (h : nm ∈ names) :
    (names.map (fun x => (x, g x))).lookup nm = some (g nm) := by
  induction names with
  | nil => simp at h
  | cons a l ih =>
    by_cases ha : nm = a
    · subst ha; simp [List.lookup]
    · rcases List.mem_cons.mp h with rfl | h'
      · exact absurd rfl ha
      · have hba : (nm == a) = false := by simpa using ha
        simp only [List.map_cons, List.lookup, hba]
        exact ih h'

theorem buildRow_getD (names : List Nat) (rvs : Nat → List (List ℚ))
    (deriv : NDArr) (dex : List (Nat × List (List (List (List ℚ))))) (a : Nat) :
    ∀ (vs : List ℚ) (b0 b : Nat), b < vs.length →
      (buildRow names rvs deriv dex a b0 vs).getD b defaultObs
        = mkOut names rvs deriv dex a (b0 + b) (vs.getD b 0) := by
  intro vs
  induction vs with
  | nil => intro b0 b hb; simp at hb
  | cons v vs ih =>
    intro b0 b hb
    cases b with
    | zero => simp [buildRow]
    | succ b' =>
      have hb' : b' < vs.length := by simpa using hb
      have harith : b0 + 1 + b' = b0 + (b' + 1) := by omega
      show ((mkOut names rvs deriv dex a b0 v) ::
        buildRow names rvs deriv dex a (b0 + 1) vs).getD (b' + 1) defaultObs = _
      rw [List.getD_cons_succ, ih (b0 + 1) b' hb', harith, List.getD_cons_succ]

theorem buildRows_getD (names : List Nat) (rvs : Nat → List (List ℚ))
    (deriv : NDArr) (dex : List (Nat × List (List (List (List ℚ))))) :
    ∀ (rows : List (List ℚ)) (a0 a : Nat), a < rows.length →
      (buildRows names rvs deriv dex a0 rows).getD a []
        = buildRow names rvs deriv dex (a0 + a) 0 (rows.getD a []) := by
  intro rows
  induction rows with
  | nil => intro a0 a ha; simp at ha
  | cons row rows ih =>
    intro a0 a ha
    cases a with
    | zero => simp [buildRows]
    | succ a' =>
      have ha' : a' < rows.length := by simpa using ha
      have harith : a0 + 1 + a' = a0 + (a' + 1) := by omega
      show (buildRow names rvs deriv dex a0 0 row ::
        buildRows names rvs deriv dex (a0 + 1) rows).getD (a' + 1) [] = _
      rw [List.getD_cons_succ, ih (a0 + 1) a' ha', harith, List.getD_cons_succ]

theorem buildResult_at {nv : List (List ℚ)} {names : List Nat}
    {rvs : Nat → List (List ℚ)} {deriv : NDArr}
    {dex : List (Nat × List (List (List (List ℚ))))} {a b : Nat}
    (ha : a < nv.length) (hb : b < (nv.getD a []).length) :
    resAt (buildResult nv names rvs deriv dex) a b
      = mkOut names rvs deriv dex a b (matAt nv a b) := by
  unfold resAt buildResult matAt
  rw [buildRows_getD names rvs deriv dex nv 0 a ha,
    buildRow_getD names rvs deriv dex (0 + a) (nv.getD a []) 0 b hb]
  simp

/-! ## The shape check is exactly per-ensemble configuration-count
consistency -/

theorem lookup_cons_self {sh : List (Nat × Nat)} {nm0 t0 : Nat} :
    ((nm0, t0) :: sh).lookup nm0 = some t0 := by
  simp [List.lookup]

theorem lookup_cons_ne {sh : List (Nat × Nat)} {nm nm0 t0 : Nat}
    (h : nm ≠ nm0) : ((nm0, t0) :: sh).lookup nm = sh.lookup nm := by
  have hb : (nm == nm0) = false := beq_eq_false_iff_ne.mpr h
  simp [List.lookup, hb]

theorem checkNamesFor_cons_none {o : Obs} {nm0 : Nat} {rest : List Nat}
    {sh : List (Nat × Nat)} (h : o.shape nm0 = none) :
    checkNamesFor o (nm0 :: rest) sh = checkNamesFor o rest sh := by
  simp only [checkNamesFor, h]

theorem checkNamesFor_cons_insert {o : Obs} {nm0 t0 : Nat} {rest : List Nat}
    {sh : List (Nat × Nat)} (h1 : o.shape nm0 = some t0)
    (h2 : sh.lookup nm0 = none) :
    checkNamesFor o (nm0 :: rest) sh = checkNamesFor o rest ((nm0, t0) :: sh) := by
  simp only [checkNamesFor, h1, h2]

theorem checkNamesFor_cons_same {o : Obs} {nm0 t0 t2 : Nat} {rest : List Nat}
    {sh : List (Nat × Nat)} (h1 : o.shape nm0 = some t0)
    (h2 : sh.lookup nm0 = some t2) (h3 : t2 = t0) :
    checkNamesFor o (nm0 :: rest) sh = checkNamesFor o rest sh := by
  simp only [checkNamesFor, h1, h2, if_pos h3]

theorem checkNamesFor_cons_clash {o : Obs} {nm0 t0 t2 : Nat} {rest : List Nat}
    {sh : List (Nat × Nat)} (h1 : o.shape nm0 = some t0)
    (h2 : sh.lookup nm0 = some t2) (h3 : ¬ t2 = t0) :
    checkNamesFor o (nm0 :: rest) sh = .error (.shapeMismatch nm0) := by
  simp only [checkNamesFor, h1, h2, if_neg h3]

theorem checkShapesAux_cons_ok {names : List Nat} {o : Obs} {os : List Obs}
    {sh sh1 : List (Nat × Nat)} (hc : checkNamesFor o names sh = .ok sh1) :
    checkShapesAux names (o :: os) sh = checkShapesAux names os sh1 := by
  simp only [checkShapesAux, hc]

theorem checkShapesAux_cons_err {names : List Nat} {o : Obs} {os : List Obs}
    {sh : List (Nat × Nat)} {e : Err}
    (hc : checkNamesFor o names sh = .error e) :
    checkShapesAux names (o :: os) sh = .error e := by
  simp only [checkShapesAux, hc]

theorem checkNamesFor_preserve {o : Obs} {names : List Nat} :
    ∀ {sh sh' : List (Nat × Nat)}, checkNamesFor o names sh = .ok sh' →
      ∀ {nm t : Nat}, sh.lookup nm = some t → sh'.lookup nm = some t := by
  induction names with
  | nil =>
    intro sh sh' h nm t hl
    unfold checkNamesFor at h
    injection h with h
    exact h ▸ hl
  | cons nm0 rest ih =>
    intro sh sh' h nm t hl
    cases hshape : o.shape nm0 with
    | none =>
      rw [checkNamesFor_cons_none hshape] at h
      exact ih h hl
    | some t0 =>
      cases hlook : sh.lookup nm0 with
      | none =>
        rw [checkNamesFor_cons_insert hshape hlook] at h
        refine ih h ?_
        by_cases hne : nm = nm0
        · subst hne; rw [hl] at hlook; exact absurd hlook (by simp)
        · rw [lookup_cons_ne hne]; exact hl
      | some t2 =>
        by_cases ht : t2 = t0
        · rw [checkNamesFor_cons_same hshape hlook ht] at h
          exact ih h hl
        · rw [checkNamesFor_cons_clash hshape hlook ht] at h
          exact absurd h (by simp)

theorem checkNamesFor_record {o : Obs} {names : List Nat} :
    ∀ {sh sh' : List (Nat × Nat)}, checkNamesFor o names sh = .ok sh' →
      ∀ {nm t : Nat}, nm ∈ names → o.shape nm = some t →
        sh'.lookup nm = some t := by
  induction names with
  | nil => intro sh sh' h nm t hmem; simp at hmem
  | cons nm0 rest ih =>
    intro sh sh' h nm t hmem hshape
    rcases List.mem_cons.mp hmem with rfl | hmem2
    · cases hlook : sh.lookup nm with
      | none =>
        rw [checkNamesFor_cons_insert hshape hlook] at h
        exact checkNamesFor_preserve h lookup_cons_self
      | some t2 =>
        by_cases ht : t2 = t
        · rw [checkNamesFor_cons_same hshape hlook ht] at h
          subst ht
          exact checkNamesFor_preserve h hlook
        · rw [checkNamesFor_cons_clash hshape hlook ht] at h
          exact absurd h (by simp)
    · cases hshape0 : o.shape nm0 with
      | none =>
        rw [checkNamesFor_cons_none hshape0] at h
        exact ih h hmem2 hshape
      | some t0 =>
        cases hlook : sh.lookup nm0 with
        | none =>
          rw [checkNamesFor_cons_insert hshape0 hlook] at h
          exact ih h hmem2 hshape
        | some t2 =>
          by_cases ht : t2 = t0
          · rw [checkNamesFor_cons_same hshape0 hlook ht] at h
            exact ih h hmem2 hshape
          · rw [checkNamesFor_cons_clash hshape0 hlook ht] at h
            exact absurd h (by simp)

theorem checkNamesFor_agrees {o : Obs} {names : List Nat} :
    ∀ {sh sh' : List (Nat × Nat)}, checkNamesFor o names sh = .ok sh' →
      AgreesWith o sh names := by
  induction names with
  | nil => intro sh sh' _ nm hmem; simp at hmem
  | cons nm0 rest ih =>
    intro sh sh' h nm hmem t t' hshape hlook
    rcases List.mem_cons.mp hmem with rfl | hmem2
    · by_cases ht : t' = t
      · exact ht.symm
      · rw [checkNamesFor_cons_clash hshape hlook ht] at h
        exact absurd h (by simp)
    · cases hshape0 : o.shape nm0 with
      | none =>
        rw [checkNamesFor_cons_none hshape0] at h
        exact ih h nm hmem2 t t' hshape hlook
      | some t0 =>
        cases hlook0 : sh.lookup nm0 with
        | none =>
          rw [checkNamesFor_cons_insert hshape0 hlook0] at h
          by_cases hne : nm = nm0
          · subst hne; rw [hlook] at hlook0; exact absurd hlook0 (by simp)
          · refine ih h nm hmem2 t t' hshape ?_
            rw [lookup_cons_ne hne]; exact hlook
        | some t2 =>
          by_cases ht : t2 = t0
          · rw [checkNamesFor_cons_same hshape0 hlook0 ht] at h
            exact ih h nm hmem2 t t' hshape hlook
          · rw [checkNamesFor_cons_clash hshape0 hlook0 ht] at h
            exact absurd h (by simp)

theorem checkNamesFor_new {o : Obs} {names : List Nat} :
    ∀ {sh sh' : List (Nat × Nat)}, checkNamesFor o names sh = .ok sh' →
      ∀ {nm t : Nat}, sh'.lookup nm = some t →
        sh.lookup nm = some t ∨ (nm ∈ names ∧ o.shape nm = some t) := by
  induction names with
  | nil =>
    intro sh sh' h nm t hl
    unfold checkNamesFor at h
    injection h with h
    exact Or.inl (h ▸ hl)
  | cons nm0 rest ih =>
    intro sh sh' h nm t hl
    cases hshape0 : o.shape nm0 with
    | none =>
      rw [checkNamesFor_cons_none hshape0] at h
      rcases ih h hl with h1 | ⟨h1, h2⟩
      · exact Or.inl h1
      · exact Or.inr ⟨List.mem_cons_of_mem _ h1, h2⟩
    | some t0 =>
      cases hlook0 : sh.lookup nm0 with
      | none =>
        rw [checkNamesFor_cons_insert hshape0 hlook0] at h
        rcases ih h hl with h1 | ⟨h1, h2⟩
        · by_cases hne : nm = nm0
          · subst hne
            rw [lookup_cons_self] at h1
            injection h1 with h1
            subst h1
            exact Or.inr ⟨List.mem_cons_self _ _, hshape0⟩
          · rw [lookup_cons_ne hne] at h1
            exact Or.inl h1
        · exact Or.inr ⟨List.mem_cons_of_mem _ h1, h2⟩
      | some t2 =>
        by_cases ht : t2 = t0
        · rw [checkNamesFor_cons_same hshape0 hlook0 ht] at h
          rcases ih h hl with h1 | ⟨h1, h2⟩
          · exact Or.inl h1
          · exact Or.inr ⟨List.mem_cons_of_mem _ h1, h2⟩
        · rw [checkNamesFor_cons_clash hshape0 hlook0 ht] at h
          exact absurd h (by simp)

theorem checkNamesFor_complete {o : Obs} {names : List Nat} :
    ∀ {sh : List (Nat × Nat)}, AgreesWith o sh names →
      ∃ sh', checkNamesFor o names sh = .ok sh' := by
  induction names with
  | nil => intro sh _; exact ⟨sh, rfl⟩
  | cons nm0 rest ih =>
    intro sh hag
    have hag2 : AgreesWith o sh rest :=
      fun nm hmem t t' ht ht' => hag nm (List.mem_cons_of_mem _ hmem) t t' ht ht'
    cases hshape0 : o.shape nm0 with
    | none =>
      obtain ⟨sh', h⟩ := ih hag2
      exact ⟨sh', by rw [checkNamesFor_cons_none hshape0]; exact h⟩
    | some t0 =>
      cases hlook0 : sh.lookup nm0 with
      | none =>
        have hag3 : AgreesWith o ((nm0, t0) :: sh) rest := by
          intro nm hmem t t' ht ht'
          by_cases hne : nm = nm0
          · subst hne
            rw [lookup_cons_self] at ht'
            injection ht' with ht'
            subst ht'
            rw [hshape0] at ht
            injection ht with ht
            exact ht.symm
          · rw [lookup_cons_ne hne] at ht'
            exact hag2 nm hmem t t' ht ht'
        obtain ⟨sh', h⟩ := ih hag3
        exact ⟨sh', by rw [checkNamesFor_cons_insert hshape0 hlook0]; exact h⟩
      | some t2 =>
        have ht2 : t2 = t0 :=
          (hag nm0 (List.mem_cons_self _ _) t0 t2 hshape0 hlook0).symm
        obtain ⟨sh', h⟩ := ih hag2
        exact ⟨sh', by rw [checkNamesFor_cons_same hshape0 hlook0 ht2]; exact h⟩

theorem checkShapesAux_agrees {names : List Nat} :
    ∀ {os : List Obs} {sh shf : List (Nat × Nat)},
      checkShapesAux names os sh = .ok shf →
      ∀ o ∈ os, AgreesWith o sh names := by
  intro os
  induction os with
  | nil => intro sh shf _ o hmem; simp at hmem
  | cons o0 os ih =>
    intro sh shf h o hmem
    cases hc : checkNamesFor o0 names sh with
    | error e =>
      rw [checkShapesAux_cons_err hc] at h
      exact absurd h (by simp)
    | ok sh1 =>
      rw [checkShapesAux_cons_ok hc] at h
      rcases List.mem_cons.mp hmem with rfl | hmem2
      · exact checkNamesFor_agrees hc
      · intro nm hnm t t' ht ht'
        exact ih h o hmem2 nm hnm t t' ht (checkNamesFor_preserve hc ht')

theorem checkShapesAux_sound {names : List Nat} :
    ∀ {os : List Obs} {sh shf : List (Nat × Nat)},
      checkShapesAux names os sh = .ok shf →
      ∀ o1 ∈ os, ∀ o2 ∈ os, ∀ nm ∈ names, ∀ t1 t2,
        o1.shape nm = some t1 → o2.shape nm = some t2 → t1 = t2 := by
  intro os
  induction os with
  | nil => intro sh shf _ o1 hmem; simp at hmem
  | cons o0 os ih =>
    intro sh shf h o1 hmem1 o2 hmem2 nm hnm t1 t2 ht1 ht2
    cases hc : checkNamesFor o0 names sh with
    | error e =>
      rw [checkShapesAux_cons_err hc] at h
      exact absurd h (by simp)
    | ok sh1 =>
      rw [checkShapesAux_cons_ok hc] at h
      rcases List.mem_cons.mp hmem1 with rfl | hm1
      · rcases List.mem_cons.mp hmem2 with rfl | hm2
        · rw [ht1] at ht2
          exact Option.some.inj ht2
        · have hrec := checkNamesFor_record hc hnm ht1
          exact (checkShapesAux_agrees h o2 hm2 nm hnm t2 t1 ht2 hrec).symm
      · rcases List.mem_cons.mp hmem2 with rfl | hm2
        · have hrec := checkNamesFor_record hc hnm ht2
          exact checkShapesAux_agrees h o1 hm1 nm hnm t1 t2 ht1 hrec
        · exact ih h o1 hm1 o2 hm2 nm hnm t1 t2 ht1 ht2

theorem checkShapesAux_complete {names : List Nat} :
    ∀ {os : List Obs} {sh : List (Nat × Nat)},
      (∀ o ∈ os, AgreesWith o sh names) →
      (∀ o1 ∈ os, ∀ o2 ∈ os, ∀ nm ∈ names, ∀ t1 t2,
        o1.shape nm = some t1 → o2.shape nm = some t2 → t1 = t2) →
      ∃ shf, checkShapesAux names os sh = .ok shf := by
  intro os
  induction os with
  | nil => intro sh _ _; exact ⟨sh, rfl⟩
  | cons o0 os ih =>
    intro sh hag hpair
    obtain ⟨sh1, hc⟩ := checkNamesFor_complete (hag o0 (List.mem_cons_self _ _))
    have hag1 : ∀ o ∈ os, AgreesWith o sh1 names := by
      intro o hmem nm hnm t t' ht ht'
      rcases checkNamesFor_new hc ht' with h1 | ⟨h1, h2⟩
      · exact hag o (List.mem_cons_of_mem _ hmem) nm hnm t t' ht h1
      · exact hpair o (List.mem_cons_of_mem _ hmem) o0 (List.mem_cons_self _ _)
          nm hnm t t' ht h2
    have hpair1 : ∀ o1 ∈ os, ∀ o2 ∈ os, ∀ nm ∈ names, ∀ t1 t2,
        o1.shape nm = some t1 → o2.shape nm = some t2 → t1 = t2 :=
      fun o1 h1 o2 h2 =>
        hpair o1 (List.mem_cons_of_mem _ h1) o2 (List.mem_cons_of_mem _ h2)
    obtain ⟨shf, hf⟩ := ih hag1 hpair1
    exact ⟨shf, by rw [checkShapesAux_cons_ok hc]; exact hf⟩

theorem checkShapes_ok_iff (os : List Obs) (names : List Nat) :
    (∃ sh, checkShapes os names = .ok sh) ↔ ShapeConsistent os names := by
  constructor
  · rintro ⟨sh, h⟩ nm hnm o1 h1 o2 h2 t1 t2 ht1 ht2
    exact checkShapesAux_sound h o1 h1 o2 h2 nm hnm t1 t2 ht1 ht2
  · intro hsc
    refine checkShapesAux_complete ?_ ?_
    · intro o hmem nm hnm t t' ht ht'
      simp [List.lookup] at ht'
    · intro o1 h1 o2 h2 nm hnm t1 t2 ht1 ht2
      exact hsc nm hnm o1 h1 o2 h2 t1 t2 ht1 ht2

/-! ## Evaluation of `derived_array` stage by stage -/

theorem derived_array_stage1 {f : List (List (List ℚ)) → List (List ℚ)}
    {data : List (List (List Entry))} {mg : Option NDArr} {ng : Bool}
    {ag : NDArr} {e : Err} (h : firstRef (ravelE data) = .error e) :
    derived_array f data mg ng ag = .error e := by
  simp only [derived_array, h]

theorem derived_array_stage2 {f : List (List (List ℚ)) → List (List ℚ)}
    {data : List (List (List Entry))} {mg : Option NDArr} {ng : Bool}
    {ag : NDArr} {fr : Option (Nat × Nat)} {e : Err}
    (h1 : firstRef (ravelE data) = .ok fr)
    (h2 : promoteData fr data = .error e) :
    derived_array f data mg ng ag = .error e := by
  simp only [derived_array, h1, h2]

theorem derived_array_stage3 {f : List (List (List ℚ)) → List (List ℚ)}
    {data : List (List (List Entry))} {mg : Option NDArr} {ng : Bool}
    {ag : NDArr} {fr : Option (Nat × Nat)} {dataP : List (List (List Obs))}
    {e : Err} (h1 : firstRef (ravelE data) = .ok fr)
    (h2 : promoteData fr data = .ok dataP)
    (h3 : checkShapes (ravelO dataP) (newNamesOf (ravelO dataP)) = .error e) :
    derived_array f data mg ng ag = .error e := by
  simp only [derived_array, h1, h2, h3]

theorem derived_array_stage4 {f : List (List (List ℚ)) → List (List ℚ)}
    {data : List (List (List Entry))} {mg : Option NDArr} {ng : Bool}
    {ag : NDArr} {fr : Option (Nat × Nat)} {dataP : List (List (List Obs))}
    {sh : List (Nat × Nat)} {e : Err}
    (h1 : firstRef (ravelE data) = .ok fr)
    (h2 : promoteData fr data = .ok dataP)
    (h3 : checkShapes (ravelO dataP) (newNamesOf (ravelO dataP)) = .ok sh)
    (h4 : pickDeriv (mshape (f (valuesOf dataP))) (dshape data) mg ng ag
      = .error e) :
    derived_array f data mg ng ag = .error e := by
  simp only [derived_array, h1, h2, h3, h4]

theorem derived_array_ok_form {f : List (List (List ℚ)) → List (List ℚ)}
    {data : List (List (List Entry))} {mg : Option NDArr} {ng : Bool}
    {ag : NDArr} {fr : Option (Nat × Nat)} {dataP : List (List (List Obs))}
    {sh : List (Nat × Nat)} {deriv : NDArr}
    (h1 : firstRef (ravelE data) = .ok fr)
    (h2 : promoteData fr data = .ok dataP)
    (h3 : checkShapes (ravelO dataP) (newNamesOf (ravelO dataP)) = .ok sh)
    (h4 : pickDeriv (mshape (f (valuesOf dataP))) (dshape data) mg ng ag
      = .ok deriv) :
    derived_array f data mg ng ag = propagateWith f dataP deriv := by
  simp only [derived_array, h1, h2, h3, h4]

theorem propagateWith_okE {f : List (List (List ℚ)) → List (List ℚ)}
    {dataP : List (List (List Obs))} {deriv : NDArr}
    {dex : List (Nat × List (List (List (List ℚ))))}
    (hx : extractAll (newNamesOf (ravelO dataP)) dataP = .ok dex) :
    propagateWith f dataP deriv
      = .ok (buildResult (f (valuesOf dataP)) (newNamesOf (ravelO dataP))
          (fun nm => f (rInput dataP nm)) deriv dex) := by
  simp only [propagateWith, hx]

theorem propagateWith_errE {f : List (List (List ℚ)) → List (List ℚ)}
    {dataP : List (List (List Obs))} {deriv : NDArr} {e : Err}
    (hx : extractAll (newNamesOf (ravelO dataP)) dataP = .error e) :
    propagateWith f dataP deriv = .error e := by
  simp only [propagateWith, hx]

theorem pickDeriv_some_ok {nvShape dataShape : List Nat} {mg : NDArr}
    {ng : Bool} {ag : NDArr} (h : nvShape ++ dataShape = mg.shape) :
    pickDeriv nvShape dataShape (some mg) ng ag = .ok mg := by
  simp only [pickDeriv]
  rw [if_neg (by simp [h])]

theorem pickDeriv_some_err {nvShape dataShape : List Nat} {mg : NDArr}
    {ng : Bool} {ag : NDArr} (h : nvShape ++ dataShape ≠ mg.shape) :
    pickDeriv nvShape dataShape (some mg) ng ag = .error .manGradShape := by
  simp only [pickDeriv]
  rw [if_pos h]

/-! ## `firstRef` scans to the first record -/

theorem firstRef_skip_nums {pre : List Entry}
    (hx : ∀ x ∈ pre, Entry.isNum x) (rest : List Entry) :
    firstRef (pre ++ rest) = firstRef rest := by
  induction pre with
  | nil => rfl
  | cons a pre ih =>
    cases a with
    | num x => exact ih (fun y hy => hx y (List.mem_cons_of_mem _ hy))
    | obs o =>
      have := hx (.obs o) (List.mem_cons_self _ _)
      simp [Entry.isNum] at this

theorem firstRef_obs_head {o : Obs} {nm : Nat} {tl : List Nat} {ds : List ℚ}
    {rest : List Entry} (hn : o.names = nm :: tl)
    (hd : o.deltas.lookup nm = some ds) :
    firstRef (.obs o :: rest) = .ok (some (nm, ds.length)) := by
  simp only [firstRef, hn, hd]

/-! ## Positions through the in-place promotion map -/

theorem getD_map_nil {γ δ : Type} {g : List γ → List δ} (hg : g [] = []) :
    ∀ (l : List (List γ)) (i : Nat), (l.map g).getD i [] = g (l.getD i [])
  | [], i => by simp [hg]
  | x :: l, 0 => by simp
  | x :: l, (i + 1) => by
    rw [List.map_cons, List.getD_cons_succ, List.getD_cons_succ]
    exact getD_map_nil hg l i

theorem entryAt_map {g : Entry → Entry} (data : List (List (List Entry)))
    (i j k : Nat) :
    entryAt (data.map (fun m => m.map (fun r => r.map g))) i j k
      = (entryAt data i j k).map g := by
  unfold entryAt
  rw [getD_map_nil rfl data i, getD_map_nil rfl (data.getD i []) j]
  exact List.get?_map g _ k

/-! ## Claim C1 -/

/-- C1: the claim says the delta propagation uses zero in place of the delta of
any input that does not reference an ensemble, so that an ensemble present in
only one input is carried through without error.  The code instead evaluates
`o.deltas[name]` (line 105) for every record and every name of the union, so a
call whose two 1×1 inputs live on the distinct ensembles 0 and 1 raises
`KeyError` for ensemble 0 at the second input.  This theorem evaluates the
embedded `derived_array` at that failing input. -/
theorem C1_missing_ensemble_raises_keyerror :
    derived_array funcHead [[[.obs obsE0]], [[.obs obsE1]]] none false grad5one
      = .error (.keyError 0) := by rfl

/-! ## Claim C2 -/

/-- C2: for every `derived_array` call that returns a result, and every ensemble
name `nm` carried by some input record, the output record at any in-range
position `(a, b)` stores as its per-ensemble mean (`r_value`) for `nm` the value
of `func` on the inputs in which each record contributes its own per-ensemble
mean for `nm` when it has one and its central value otherwise (lines 78-87,
115-121). -/
theorem C2_r_value_is_func_of_per_ensemble_means
    (f : List (List (List ℚ)) → List (List ℚ)) (data : List (List (List Entry)))
    (mg : Option NDArr) (ng : Bool) (ag : NDArr) (fr : Option (Nat × Nat))
    (dataP : List (List (List Obs))) (res : List (List Obs)) (o : Obs)
    (nm a b : Nat)
    (h1 : firstRef (ravelE data) = .ok fr)
    (h2 : promoteData fr data = .ok dataP)
    (hres : derived_array f data mg ng ag = .ok res)
    (ho : Entry.obs o ∈ ravelE data) (hnm : nm ∈ o.names)
    (ha : a < (f (valuesOf dataP)).length)
    (hb : b < ((f (valuesOf dataP)).getD a []).length) :
    (resAt res a b).rvals.lookup nm
      = some (matAt (f (rInput dataP nm)) a b) := by
  have hoP : o ∈ ravelO dataP :=
    mapME_ok_mem (promoteData_ravel h2) _ ho o rfl
  have hnm2 : nm ∈ newNamesOf (ravelO dataP) := mem_newNamesOf hoP hnm
  cases h3 : checkShapes (ravelO dataP) (newNamesOf (ravelO dataP)) with
  | error e =>
    rw [derived_array_stage3 h1 h2 h3] at hres
    exact absurd hres (by simp)
  | ok sh =>
    cases h4 : pickDeriv (mshape (f (valuesOf dataP))) (dshape data) mg ng ag with
    | error e =>
      rw [derived_array_stage4 h1 h2 h3 h4] at hres
      exact absurd hres (by simp)
    | ok deriv =>
      rw [derived_array_ok_form h1 h2 h3 h4] at hres
      cases h5 : extractAll (newNamesOf (ravelO dataP)) dataP with
      | error e =>
        rw [propagateWith_errE h5] at hres
        exact absurd hres (by simp)
      | ok dex =>
        rw [propagateWith_okE h5] at hres
        injection hres with hres
        rw [← hres, buildResult_at ha hb]
        unfold mkOut
        exact lookup_map_pair hnm2

/-- C2 witness: the concrete call on `dataW` (records `obsE0` and `obsE0b` on
ensemble 0, where `obsE0b`'s per-ensemble mean 5 differs from its central value
4) stores `funcHead` of the per-ensemble means as the output `r_value`. -/
theorem C2_witness :
    (Entry.obs obsE0 ∈ ravelE dataW ∧ (0 : Nat) ∈ obsE0.names
      ∧ derived_array funcHead dataW none false gradPair = .ok resW)
    ∧ (resAt resW 0 1).rvals.lookup 0
        = some (matAt (funcHead (rInput dataPW 0)) 0 1) := by
  have h1 : firstRef (ravelE dataW) = .ok (some (0, 2)) := by decide
  have h2 : promoteData (some (0, 2)) dataW = .ok dataPW := by decide
  have h3 : checkShapes (ravelO dataPW) (newNamesOf (ravelO dataPW))
      = .ok [(0, 2)] := by decide
  have h4 : pickDeriv (mshape (funcHead (valuesOf dataPW))) (dshape dataW)
      none false gradPair = .ok gradPair := rfl
  have h5 : extractAll (newNamesOf (ravelO dataPW)) dataPW = .ok dexW := rfl
  have hres : derived_array funcHead dataW none false gradPair = .ok resW :=
    (derived_array_ok_form h1 h2 h3 h4).trans (propagateWith_okE h5)
  refine ⟨⟨by decide, by decide, hres⟩, ?_⟩
  exact C2_r_value_is_func_of_per_ensemble_means funcHead dataW none false
    gradPair (some (0, 2)) dataPW resW obsE0 0 0 1 h1 h2 hres (by decide)
    (by decide) (by decide) (by decide)

/-! ## Claim C3 -/

/-- C3: a `derived_array` call raises the shape-mismatch error (for some
ensemble, before any delta propagation: the raised error is the result of the
whole call) exactly when the same ensemble name occurs in two input records
with different configuration counts; when all records that reference each
ensemble agree on its count, no such error is raised (lines 61-70). -/
theorem C3_shape_check_iff_inconsistent
    (f : List (List (List ℚ)) → List (List ℚ)) (data : List (List (List Entry)))
    (mg : Option NDArr) (ng : Bool) (ag : NDArr) (fr : Option (Nat × Nat))
    (dataP : List (List (List Obs)))
    (h1 : firstRef (ravelE data) = .ok fr)
    (h2 : promoteData fr data = .ok dataP) :
    (∃ nm, derived_array f data mg ng ag = .error (.shapeMismatch nm)) ↔
      ¬ ShapeConsistent (ravelO dataP) (newNamesOf (ravelO dataP)) := by
  constructor
  · rintro ⟨nm, h⟩ hsc
    obtain ⟨sh, h3⟩ := (checkShapes_ok_iff _ _).mpr hsc
    cases h4 : pickDeriv (mshape (f (valuesOf dataP))) (dshape data) mg ng ag with
    | error e =>
      rw [derived_array_stage4 h1 h2 h3 h4] at h
      injection h with h
      rcases pickDeriv_error h4 with rfl | rfl <;> exact absurd h (by simp)
    | ok deriv =>
      rw [derived_array_ok_form h1 h2 h3 h4] at h
      cases h5 : extractAll (newNamesOf (ravelO dataP)) dataP with
      | error e =>
        rw [propagateWith_errE h5] at h
        injection h with h
        obtain ⟨nm2, rfl⟩ := extractAll_error h5
        exact absurd h (by simp)
      | ok dex =>
        rw [propagateWith_okE h5] at h
        exact absurd h (by simp)
  · intro hns
    cases h3 : checkShapes (ravelO dataP) (newNamesOf (ravelO dataP)) with
    | ok sh => exact absurd ((checkShapes_ok_iff _ _).mp ⟨sh, h3⟩) hns
    | error e =>
      obtain ⟨nm, rfl⟩ := checkShapesAux_error h3
      exact ⟨nm, derived_array_stage3 h1 h2 h3⟩

/-- C3 witness: `dataC3` holds two records on ensemble 0 with 2 and 3
configurations; the call raises the shape-mismatch error. -/
theorem C3_witness :
    ∃ nm, derived_array funcHead dataC3 none false gradPair
      = .error (.shapeMismatch nm) := by
  refine (C3_shape_check_iff_inconsistent funcHead dataC3 none false gradPair
    (some (0, 2)) [[[obsE0, obsE0c]]] (by decide) (by decide)).mpr ?_
  intro hsc
  have h23 := hsc 0 (by decide) obsE0 (by decide) obsE0c (by decide) 2 3
    (by decide) (by decide)
  exact absurd h23 (by decide)

/-! ## Claim C4 -/

/-- C4: with a manually supplied Jacobian, the call raises the
manual-derivative shape error exactly when the supplied array's shape differs
from the concatenation of the output shape and the input data shape; when the
shapes match, the supplied array is used verbatim as the Jacobian of the rest
of the computation, with no further validation — in particular the result does
not depend on `num_grad` or on the autograd Jacobian (lines 89-92). -/
theorem C4_man_grad_shape_check
    (f : List (List (List ℚ)) → List (List ℚ)) (data : List (List (List Entry)))
    (mg : NDArr) (ng : Bool) (ag : NDArr) (fr : Option (Nat × Nat))
    (dataP : List (List (List Obs))) (sh : List (Nat × Nat))
    (h1 : firstRef (ravelE data) = .ok fr)
    (h2 : promoteData fr data = .ok dataP)
    (h3 : checkShapes (ravelO dataP) (newNamesOf (ravelO dataP)) = .ok sh) :
    (derived_array f data (some mg) ng ag = .error .manGradShape ↔
      mshape (f (valuesOf dataP)) ++ dshape data ≠ mg.shape)
    ∧ (mshape (f (valuesOf dataP)) ++ dshape data = mg.shape →
        derived_array f data (some mg) ng ag = propagateWith f dataP mg) := by
  constructor
  · constructor
    · intro h hshape
      rw [derived_array_ok_form h1 h2 h3 (pickDeriv_some_ok hshape)] at h
      obtain ⟨nm, hnm⟩ := propagateWith_error h
      exact absurd hnm (by simp)
    · intro hne
      exact derived_array_stage4 h1 h2 h3 (pickDeriv_some_err hne)
  · intro hshape
    exact derived_array_ok_form h1 h2 h3 (pickDeriv_some_ok hshape)

/-- C4 witness: on `dataW` the required Jacobian shape is `[1, 2, 1, 1, 2]`, so
the array `grad5one` of shape `[1, 1, 1, 1, 1]` is rejected with the
manual-derivative error, while `gradPair` of the right shape is used
verbatim. -/
theorem C4_witness :
    derived_array funcHead dataW (some grad5one) false gradPair
      = .error .manGradShape
    ∧ derived_array funcHead dataW (some gradPair) true gradPair
      = propagateWith funcHead dataPW gradPair := by
  constructor
  · exact (C4_man_grad_shape_check funcHead dataW grad5one false gradPair
      (some (0, 2)) dataPW [(0, 2)] (by decide) (by decide) (by decide)).1.mpr
      (by decide)
  · exact (C4_man_grad_shape_check funcHead dataW gradPair true gradPair
      (some (0, 2)) dataPW [(0, 2)] (by decide) (by decide) (by decide)).2
      (by decide)

/-! ## Claim C6 -/

/-- C6 counterexample: the claim says every call with `num_grad=True` raises a
fatal error, but a manual Jacobian takes precedence (`if man_grad / elif
num_grad`, lines 89-94): the call on `dataC6` with both `man_grad` and
`num_grad=True` returns a result. -/
theorem C6_counterexample :
    exOk (derived_array funcHead dataC6 (some grad5one) true grad5one)
      = true := by rfl

/-- C6 as amended: a call with `num_grad=True` and no manual Jacobian raises
the unsupported-mode error (and so never reaches the autograd strategy); with
a manual Jacobian supplied, `num_grad` is ignored (lines 93-94). -/
theorem C6_num_grad_unsupported_without_man_grad
    (f : List (List (List ℚ)) → List (List ℚ)) (data : List (List (List Entry)))
    (ag : NDArr) (fr : Option (Nat × Nat)) (dataP : List (List (List Obs)))
    (sh : List (Nat × Nat))
    (h1 : firstRef (ravelE data) = .ok fr)
    (h2 : promoteData fr data = .ok dataP)
    (h3 : checkShapes (ravelO dataP) (newNamesOf (ravelO dataP)) = .ok sh) :
    derived_array f data none true ag = .error .numGradUnsupported :=
  derived_array_stage4 h1 h2 h3 rfl

/-- C6 witness: the concrete `num_grad=True` call without `man_grad`. -/
theorem C6_witness :
    derived_array funcHead dataC6 none true grad5one
      = .error .numGradUnsupported :=
  C6_num_grad_unsupported_without_man_grad funcHead dataC6 grad5one
    (some (0, 2)) [[[obsE0]]] [(0, 2)] (by decide) (by decide) (by decide)

/-! ## Claim C10 -/

/-- C10: `derived_array` needs at least one record among the raveled inputs:
plain numbers are promoted to constant records on the first ensemble of the
first record found (`firstRef` skips leading numbers and reads `names[0]` and
its configuration count of the first record; promotion builds the constant
record), and a nonempty call in which every entry is a plain number fails with
the unbound-`first_name` error instead of returning a result (lines 47-56). -/
theorem C10_plain_numbers_need_a_record :
    (∀ (f : List (List (List ℚ)) → List (List ℚ))
      (data : List (List (List Entry))) (mg : Option NDArr) (ng : Bool)
      (ag : NDArr), ravelE data ≠ [] → (∀ x ∈ ravelE data, Entry.isNum x) →
      derived_array f data mg ng ag = .error .nameError)
    ∧ (∀ (x : ℚ) (nm len : Nat),
        promoteEntry (some (nm, len)) (.num x) = .ok (Obs.ofConstant x nm len))
    ∧ (∀ (pre : List Entry) (o : Obs) (nm : Nat) (tl : List Nat) (ds : List ℚ)
        (rest : List Entry), (∀ x ∈ pre, Entry.isNum x) →
        o.names = nm :: tl → o.deltas.lookup nm = some ds →
        firstRef (pre ++ .obs o :: rest) = .ok (some (nm, ds.length))) := by
  refine ⟨?_, ?_, ?_⟩
  · intro f data mg ng ag hne hall
    exact derived_array_stage2 (firstRef_allnum hall)
      (promoteData_allnum_error hne hall)
  · intro x nm len
    rfl
  · intro pre o nm tl ds rest hx hn hd
    rw [firstRef_skip_nums hx]
    exact firstRef_obs_head hn hd

/-- C10 witness: a collection holding only the plain number 3 fails with the
unbound-`first_name` error, and the number 5 after `obsE0` is promoted to the
constant record on `obsE0`'s first ensemble. -/
theorem C10_witness :
    (ravelE [[[Entry.num 3]]] ≠ []
      ∧ derived_array funcHead [[[Entry.num 3]]] none false grad5one
          = .error .nameError)
    ∧ promoteEntry (some (0, 2)) (.num 5) = .ok (Obs.ofConstant 5 0 2)
    ∧ firstRef ([Entry.num 7] ++ .obs obsE0 :: [])
        = .ok (some (0, (2 : Nat))) := by
  refine ⟨⟨by decide, ?_⟩, ?_, ?_⟩
  · exact C10_plain_numbers_need_a_record.1 funcHead [[[Entry.num 3]]] none
      false grad5one (by decide) (by decide)
  · exact C10_plain_numbers_need_a_record.2.1 5 0 2
  · exact C10_plain_numbers_need_a_record.2.2 [Entry.num 7] obsE0 0 [] [1, -1]
      [] (by decide) (by decide) (by decide)

/-! ## Claim C7 -/

/-- C7 counterexample: the claim says no entry of the caller's collection is
ever replaced, but when the caller passes an ndarray whose raveled view holds
a plain number next to a record, the promotion loop of lines 54-56 writes the
promoted constant record into the caller's array in place (`np.asarray`
returns the caller's own ndarray and `ravel` is a view into its buffer). -/
theorem C7_counterexample :
    callerViewAfter true dataC7 ≠ dataC7 := by decide

/-- C7 as amended: input records are never mutated and a collection passed as
a list reaches the caller unchanged; a collection passed as an ndarray keeps
every record entry, but each plain-number entry is replaced in place by the
constant record promoted onto the first ensemble of the first record
(lines 44-56). -/
theorem C7_mutation_only_of_number_entries :
    (∀ data, callerViewAfter false data = data)
    ∧ (∀ (data : List (List (List Entry))) (i j k : Nat) (o : Obs),
        entryAt data i j k = some (.obs o) →
        entryAt (callerViewAfter true data) i j k = some (.obs o))
    ∧ (∀ (data : List (List (List Entry))) (i j k : Nat) (x : ℚ)
        (nm len : Nat), firstRef (ravelE data) = .ok (some (nm, len)) →
        entryAt data i j k = some (.num x) →
        entryAt (callerViewAfter true data) i j k
          = some (.obs (Obs.ofConstant x nm len))) := by
  refine ⟨fun data => rfl, ?_, ?_⟩
  · intro data i j k o h
    unfold callerViewAfter
    cases hfr : firstRef (ravelE data) with
    | error e => simpa using h
    | ok fr =>
      simp only [if_pos]
      rw [entryAt_map, h]
      rfl
  · intro data i j k x nm len hfr h
    unfold callerViewAfter
    rw [hfr]
    simp only [if_pos]
    rw [entryAt_map, h]
    rfl

/-- C7 witness: in the array `dataC7` the record entry survives and the
number 5 is replaced by the constant record on ensemble 0. -/
theorem C7_witness :
    (entryAt dataC7 0 0 0 = some (.obs obsE0)
      ∧ firstRef (ravelE dataC7) = .ok (some (0, 2))
      ∧ entryAt dataC7 0 0 1 = some (.num 5))
    ∧ entryAt (callerViewAfter true dataC7) 0 0 0 = some (.obs obsE0)
    ∧ entryAt (callerViewAfter true dataC7) 0 0 1
        = some (.obs (Obs.ofConstant 5 0 2)) := by
  refine ⟨⟨by decide, by decide, by decide⟩, ?_, ?_⟩
  · exact C7_mutation_only_of_number_entries.2.1 dataC7 0 0 0 obsE0 (by decide)
  · exact C7_mutation_only_of_number_entries.2.2 dataC7 0 0 1 5 0 2 (by decide)
      (by decide)

/-! ## Claim C9 -/

/-- C9: both paths of `eig` (line 220 and lines 368-370) return only the real
part of every eigenvalue the external routine produced, so for a matrix with
genuinely complex spectrum the returned values are not the eigenvalues: the
rotation matrix `[[0, -1], [1, 0]]` has spectrum {i, -i}, the call returns
`[0, 0]`, and `0` is not an eigenvalue of that matrix. -/
theorem C9_eig_returns_real_parts_only :
    eig_returned [((0 : ℚ), (1 : ℚ)), ((0 : ℚ), (-1 : ℚ))] = [0, 0]
    ∧ isEig2 (0, 0) (-1, 0) (1, 0) (0, 0) ((0 : ℚ), (1 : ℚ))
    ∧ isEig2 (0, 0) (-1, 0) (1, 0) (0, 0) ((0 : ℚ), (-1 : ℚ))
    ∧ ¬ isEig2 (0, 0) (-1, 0) (1, 0) (0, 0) ((0 : ℚ), (0 : ℚ)) := by
  refine ⟨rfl, ?_, ?_, ?_⟩ <;> norm_num [isEig2, cmulp, csubp, Prod.ext_iff]

/-! ## Claim C5 -/

/-- C5 counterexample: for `op` = matrix transposition on the 1×1 complex
matrix `[i]`, the real-block computation (block, apply `op`, take quadrants)
returns `-i`, while applying the transposition directly to the complex matrix
gives `[i]`: the real-block computation does not agree with applying `op`
directly to the complex matrix for every `op`. -/
theorem C5_counterexample :
    mat_mat_op_complex (fun M => M.transpose) cexA cexB
      ≠ (cexA.transpose, cexB.transpose) := by
  intro h
  have h2 := congrArg (fun p => p.2 0 0) h
  simp only [mat_mat_op_complex, bigMatrix, Matrix.toBlocks₂₁,
    Matrix.transpose_apply, Matrix.fromBlocks_apply₁₂, Matrix.of_apply,
    Matrix.neg_apply, cexA, cexB, Matrix.one_apply_eq] at h2
  norm_num at h2

theorem had_zero_right {n : ℕ} (M : Matrix (Fin n) (Fin n) ℚ) :
    had M 0 = 0 := by
  ext i j
  simp [had]

theorem diagPart_zero {n : ℕ} : diagPart (0 : Matrix (Fin n) (Fin n) ℚ) = 0 := by
  ext i j
  simp [diagPart]

theorem bigMatrix_mul_J {n : ℕ} (A B : Matrix (Fin n) (Fin n) ℚ) :
    bigMatrix A B * Jmat = Jmat * bigMatrix A B := by
  simp [bigMatrix, Jmat, Matrix.fromBlocks_multiply, Matrix.mul_zero,
    Matrix.zero_mul, Matrix.mul_one, Matrix.one_mul, Matrix.mul_neg,
    Matrix.neg_mul]

/-- C5 as amended: the complex branch of `mat_mat_op` computes `op` once on
the real block matrix `[[A, -B], [B, A]]` and returns the top-left quadrant as
the real parts and the bottom-left quadrant as the imaginary parts; when `op`
computes the matrix inverse at the block matrix (the `np.linalg.inv` contract
of the `inv` adapter), the returned pair is a two-sided complex inverse of
`A + iB` — the real-block computation agrees with inverting the complex matrix
directly.  (For general `op` the agreement fails; see the transpose
counterexample.) -/
theorem C5_block_inverse_agreement {n : ℕ}
    (op : Matrix (Fin n ⊕ Fin n) (Fin n ⊕ Fin n) ℚ →
      Matrix (Fin n ⊕ Fin n) (Fin n ⊕ Fin n) ℚ)
    (A B : Matrix (Fin n) (Fin n) ℚ)
    (h1 : bigMatrix A B * op (bigMatrix A B) = 1)
    (h2 : op (bigMatrix A B) * bigMatrix A B = 1) :
    cMul (A, B) (mat_mat_op_complex op A B) = cOne
    ∧ cMul (mat_mat_op_complex op A B) (A, B) = cOne := by
  obtain ⟨X, hXdef⟩ : ∃ X, op (bigMatrix A B) = X := ⟨_, rfl⟩
  rw [hXdef] at h1 h2
  have hXJ : X * Jmat = Jmat * X := by
    calc X * Jmat
        = X * Jmat * (bigMatrix A B * X) := by rw [h1, mul_one]
      _ = X * (Jmat * bigMatrix A B) * X := by
          rw [mul_assoc, mul_assoc, mul_assoc]
      _ = X * (bigMatrix A B * Jmat) * X := by rw [bigMatrix_mul_J]
      _ = (X * bigMatrix A B) * (Jmat * X) := by
          rw [mul_assoc, mul_assoc, mul_assoc]
      _ = Jmat * X := by rw [h2, one_mul]
  have hres : mat_mat_op_complex op A B = (X.toBlocks₁₁, X.toBlocks₂₁) := by
    unfold mat_mat_op_complex
    rw [hXdef]
  rw [← Matrix.fromBlocks_toBlocks X] at h1 h2 hXJ
  rw [show (1 : Matrix (Fin n ⊕ Fin n) (Fin n ⊕ Fin n) ℚ)
      = Matrix.fromBlocks 1 0 0 1 from Matrix.fromBlocks_one.symm] at h1 h2
  unfold bigMatrix at h1 h2
  unfold Jmat at hXJ
  rw [Matrix.fromBlocks_multiply] at h1 h2
  rw [Matrix.fromBlocks_multiply, Matrix.fromBlocks_multiply] at hXJ
  obtain ⟨e11, -, e21, -⟩ := Matrix.fromBlocks_inj.mp h1
  obtain ⟨f11, f12, -, -⟩ := Matrix.fromBlocks_inj.mp h2
  obtain ⟨hQ, -, -, -⟩ := Matrix.fromBlocks_inj.mp hXJ
  have hQR : X.toBlocks₁₂ = -X.toBlocks₂₁ := by
    simpa [Matrix.mul_zero, Matrix.mul_one, Matrix.zero_mul, Matrix.neg_mul,
      Matrix.one_mul] using hQ
  rw [hres]
  constructor
  · show (A * X.toBlocks₁₁ - B * X.toBlocks₂₁,
      A * X.toBlocks₂₁ + B * X.toBlocks₁₁) = ((1 : Matrix (Fin n) (Fin n) ℚ), 0)
    have e11' : A * X.toBlocks₁₁ - B * X.toBlocks₂₁ = 1 := by
      rw [← e11]
      simp [Matrix.neg_mul, sub_eq_add_neg]
    have e21' : A * X.toBlocks₂₁ + B * X.toBlocks₁₁ = 0 := by
      rw [← e21]
      exact add_comm _ _
    rw [e11', e21']
  · show (X.toBlocks₁₁ * A - X.toBlocks₂₁ * B,
      X.toBlocks₁₁ * B + X.toBlocks₂₁ * A) = ((1 : Matrix (Fin n) (Fin n) ℚ), 0)
    have f11' : X.toBlocks₁₁ * A - X.toBlocks₂₁ * B = 1 := by
      rw [← f11, hQR]
      simp [Matrix.neg_mul, sub_eq_add_neg]
    have f12' : X.toBlocks₁₁ * B + X.toBlocks₂₁ * A = 0 := by
      have h0 : X.toBlocks₁₁ * (-B) + X.toBlocks₁₂ * A = 0 := f12
      rw [hQR] at h0
      have h0' : -(X.toBlocks₁₁ * B + X.toBlocks₂₁ * A) = 0 := by
        rw [← h0]
        simp only [Matrix.mul_neg, Matrix.neg_mul, neg_add]
      exact neg_eq_zero.mp h0'
    rw [f11', f12']

/-- C5 witness: on the 1×1 complex matrix `[i]` (real part 0, imaginary part
1), when `op` returns the inverse of the block matrix, the extracted pair is
the two-sided complex inverse of `[i]`. -/
theorem C5_witness :
    (bigMatrix cexA cexB * cexOp (bigMatrix cexA cexB) = 1
      ∧ cexOp (bigMatrix cexA cexB) * bigMatrix cexA cexB = 1)
    ∧ cMul (cexA, cexB) (mat_mat_op_complex cexOp cexA cexB) = cOne
    ∧ cMul (mat_mat_op_complex cexOp cexA cexB) (cexA, cexB) = cOne := by
  have hm1 : bigMatrix cexA cexB * cexOp (bigMatrix cexA cexB) = 1 := by
    show Matrix.fromBlocks cexA (-cexB) cexB cexA * cexInv = 1
    unfold cexA cexB cexInv
    rw [Matrix.fromBlocks_multiply]
    simp [Matrix.zero_mul, Matrix.mul_zero, Matrix.neg_mul, Matrix.mul_neg,
      neg_neg, Matrix.one_mul, Matrix.mul_one, Matrix.fromBlocks_one]
  have hm2 : cexOp (bigMatrix cexA cexB) * bigMatrix cexA cexB = 1 := by
    show cexInv * Matrix.fromBlocks cexA (-cexB) cexB cexA = 1
    unfold cexA cexB cexInv
    rw [Matrix.fromBlocks_multiply]
    simp [Matrix.zero_mul, Matrix.mul_zero, Matrix.neg_mul, Matrix.mul_neg,
      neg_neg, Matrix.one_mul, Matrix.mul_one, Matrix.fromBlocks_one]
  exact ⟨⟨hm1, hm2⟩, C5_block_inverse_agreement cexOp cexA cexB hm1 hm2⟩

/-! ## Claim C8 -/

/-- C8 counterexample: `grad_eig` builds the pairwise matrix with `(i, j)`
entry `1/(e_j - e_i + 1e-20)` (line 500), the transposed convention of the
claim: at the eigenvalues `e = (0, 1)` the `(0, 1)` entry differs from the
claimed `1/(e_0 - e_1 + offset)`. -/
theorem C8_counterexample :
    pairFz (![0, 1] : Fin 2 → ℚ) 0 1 ≠ ((0 : ℚ) - 1 + epsReg)⁻¹ := by
  have h : pairFz (![0, 1] : Fin 2 → ℚ) 0 1 = ((1 : ℚ) - 0 + epsReg)⁻¹ := by
    simp [pairFz, pairF, diagPart, Matrix.sub_apply, Matrix.of_apply,
      Matrix.cons_val_zero, Matrix.cons_val_one, Matrix.head_cons]
  rw [h]
  norm_num [epsReg]

/-- C8 as amended: the pairwise matrix built by `grad_eig` has `(i, j)` entry
`1/(e_j - e_i + 1e-20)` off the diagonal and zero on the diagonal; with the
eigenvector sensitivity `gu = 0` the returned sensitivity is `inv(uᵀ) ·
diag(ge) · uᵀ`, which is consistent with `A = u · diag(e) · u⁻¹` in the sense
that its trace pairing with any perturbation `dA` equals
`Σᵢ geᵢ · (u⁻¹ · dA · u)ᵢᵢ`, the first-order eigenvalue sensitivity (with
`u⁻¹ = (inv(uᵀ))ᵀ` under the inverse contract for `uti`).  The embedding is
the real-eigensystem case, where the final `anp.real` of line 507 is the
identity и the returned sensitivity is real by construction. -/
theorem C8_grad_eig_rule {n : ℕ} (e : Fin n → ℚ)
    (u uti : Matrix (Fin n) (Fin n) ℚ) (ge : Fin n → ℚ)
    (dA : Matrix (Fin n) (Fin n) ℚ)
    (hu1 : u.transpose * uti = 1) (hu2 : uti * u.transpose = 1) :
    (∀ i j, i ≠ j → pairFz e i j = (e j - e i + epsReg)⁻¹)
    ∧ (∀ i, pairFz e i i = 0)
    ∧ grad_eig_vjp e u uti ge 0 = uti * Matrix.diagonal ge * u.transpose
    ∧ Matrix.trace ((grad_eig_vjp e u uti ge 0).transpose * dA)
        = ∑ i, ge i * (uti.transpose * dA * u) i i := by
  have hform : grad_eig_vjp e u uti ge 0
      = uti * Matrix.diagonal ge * u.transpose := by
    unfold grad_eig_vjp
    simp only [Matrix.mul_zero, had_zero_right, diagPart_zero, neg_zero,
      add_zero]
  refine ⟨?_, ?_, hform, ?_⟩
  · intro i j hij
    simp [pairFz, pairF, diagPart, Matrix.sub_apply, Matrix.of_apply, hij]
  · intro i
    simp [pairFz, pairF, diagPart, Matrix.sub_apply, Matrix.of_apply]
  · rw [hform, Matrix.transpose_mul, Matrix.transpose_mul,
      Matrix.transpose_transpose, Matrix.diagonal_transpose, mul_assoc,
      Matrix.trace_mul_comm, mul_assoc, mul_assoc,
      ← mul_assoc uti.transpose dA u]
    simp [Matrix.trace, Matrix.diag, Matrix.diagonal_mul]

/-- C8 witness: the rule at the 1×1 real eigensystem `e = (3)`, `u = 1`. -/
theorem C8_witness :
    ((1 : Matrix (Fin 1) (Fin 1) ℚ).transpose * 1 = 1)
    ∧ ((∀ i j : Fin 1, i ≠ j →
          pairFz (![3] : Fin 1 → ℚ) i j
            = ((![3] : Fin 1 → ℚ) j - (![3] : Fin 1 → ℚ) i + epsReg)⁻¹)
      ∧ (∀ i : Fin 1, pairFz (![3] : Fin 1 → ℚ) i i = 0)
      ∧ grad_eig_vjp (![3] : Fin 1 → ℚ) 1 1 (![5] : Fin 1 → ℚ) 0
          = 1 * Matrix.diagonal (![5] : Fin 1 → ℚ)
              * (1 : Matrix (Fin 1) (Fin 1) ℚ).transpose
      ∧ Matrix.trace
            ((grad_eig_vjp (![3] : Fin 1 → ℚ) 1 1 (![5] : Fin 1 → ℚ) 0).transpose
              * (!![7] : Matrix (Fin 1) (Fin 1) ℚ))
          = ∑ i, (![5] : Fin 1 → ℚ) i
              * ((1 : Matrix (Fin 1) (Fin 1) ℚ).transpose
                  * (!![7] : Matrix (Fin 1) (Fin 1) ℚ)
                  * (1 : Matrix (Fin 1) (Fin 1) ℚ)) i i) := by
  have hu : (1 : Matrix (Fin 1) (Fin 1) ℚ).transpose * 1 = 1 := by simp
  have hu2 : (1 : Matrix (Fin 1) (Fin 1) ℚ)
      * (1 : Matrix (Fin 1) (Fin 1) ℚ).transpose = 1 := by simp
  exact ⟨hu, C8_grad_eig_rule ![3] 1 1 ![5] !![7] hu hu2⟩

end PyerrorsLinalg
